import Mathlib

/-!
Formal model (shallow embedding) of `src/script.py`, a batch thumbnail
generator.  Pure logic (duration parsing, deduplication, seek computation,
counter accounting, command construction, exit codes) is translated into
executable Lean definitions; external effects (subprocess invocations of
ffmpeg/ffprobe, filesystem existence checks) are modelled as explicit
outcome values passed in as parameters, since the script only observes
their exit status / output.

Strings are modelled as `List Char`.  The Python regex character classes
`\d` and `\s` are modelled by their ASCII meaning (`Char.isDigit` and the
six ASCII whitespace characters); Python's default Unicode classes extend
these, but every behaviour the specification describes is within ASCII.
-/

set_option maxRecDepth 4096

namespace Script

/-- ASCII model of the regex class `\s` (space, tab, newline, carriage
return, vertical tab, form feed). -/
def isSpaceChar (c : Char) : Bool :=
  c == ' ' || c == '\t' || c == '\n' || c == '\r' ||
  c == Char.ofNat 11 || c == Char.ofNat 12

/-- Numeric value of a digit string, as Python's `int` computes it on a
string of decimal digits. -/
def natOfDigits (l : List Char) : Nat :=
  l.foldl (fun a c => 10 * a + (c.toNat - 48)) 0

/-- Greedy `\d+`/`\d*`: split a string into its maximal digit prefix and
the remainder. -/
def takeDigits : List Char → List Char × List Char
  | [] => ([], [])
  | c :: rest =>
    if c.isDigit then
      let p := takeDigits rest
      (c :: p.1, p.2)
    else ([], c :: rest)

/-- Greedy `\s*`: split a string into its maximal whitespace prefix and
the remainder. -/
def takeSpaces : List Char → List Char × List Char
  | [] => ([], [])
  | c :: rest =>
    if isSpaceChar c then
      let p := takeSpaces rest
      (c :: p.1, p.2)
    else ([], c :: rest)

/--
Matcher for the tail `(\d+m)\s*(\d+s)?,` of the regex in `parse_duration`
(`src/script.py` line 22), at a fixed position, carrying the already
matched optional hours capture `h`.  Returns the captured numeric values
`(hours?, minutes, seconds?)`.

Backtracking note: when the optional `(\d+s)?` group matches but no `,`
follows, the regex engine retries with the group unmatched; `,` must then
match where a digit stands, which always fails, so the translation
returns `none` directly in that case.  Likewise `\s*` never backtracks
usefully here because what follows it must start with a digit or `,`,
neither of which is whitespace.
-/
def matchMS (h : Option Nat) (s : List Char) : Option (Option Nat × Nat × Option Nat) :=
  let md := takeDigits s
  if md.1.isEmpty then none
  else
    match md.2 with
    | 'm' :: s2 =>
      let s3 := (takeSpaces s2).2
      let sd := takeDigits s3
      if sd.1.isEmpty then
        match s3 with
        | ',' :: _ => some (h, natOfDigits md.1, none)
        | _ => none
      else
        match sd.2 with
        | 's' :: ',' :: _ => some (h, natOfDigits md.1, some (natOfDigits sd.1))
        | _ => none
    | _ => none

/-- The hours branch of the regex: the greedy optional group `(\d+h\s*)?`
matched, followed by the `(\d+m)\s*(\d+s)?,` tail. -/
def hoursThen (rest : List Char) : Option (Option Nat × Nat × Option Nat) :=
  if (takeDigits rest).1.isEmpty then none
  else
    match (takeDigits rest).2 with
    | 'h' :: r2 => matchMS (some (natOfDigits (takeDigits rest).1)) (takeSpaces r2).2
    | _ => none

/--
Matcher for the full regex `\((\d+h\s*)?(\d+m)\s*(\d+s)?,` of
`parse_duration` at a fixed position.  The optional greedy hours group is
tried first; if it, or the remainder after it, fails, the engine retries
with the group unmatched (that retry can only succeed when the group
itself never matched, since otherwise `(\d+m)` would have to match a
digit string followed by `h`).
-/
def matchAt : List Char → Option (Option Nat × Nat × Option Nat)
  | '(' :: rest =>
    match hoursThen rest with
    | some r => some r
    | none => matchMS none rest
  | _ => none

/-- `re.search`: try the pattern at every position, left to right, and
return the captures of the leftmost match. -/
def searchDur : List Char → Option (Option Nat × Nat × Option Nat)
  | [] => none
  | c :: rest =>
    match matchAt (c :: rest) with
    | some r => some r
    | none => searchDur rest

/--
`parse_duration` (`src/script.py` lines 14-38): extract a duration from a
title such as `(1h 21m, 704x512)`.  Returns the duration in seconds, or
`none` when the regex does not match anywhere in the title.
-/
def parse_duration (title : List Char) : Option Nat :=
  match searchDur title with
  | none => none
  | some r => some ((r.1.getD 0) * 3600 + r.2.1 * 60 + (r.2.2.getD 0))

/-- A nonempty all-digit string. -/
def digitsStr (l : List Char) : Prop := l ≠ [] ∧ ∀ c ∈ l, c.isDigit = true

/-- An all-whitespace (possibly empty) string. -/
def spacesStr (l : List Char) : Prop := ∀ c ∈ l, isSpaceChar c = true

instance (l : List Char) : Decidable (digitsStr l) := by
  unfold digitsStr
  infer_instance

instance (l : List Char) : Decidable (spacesStr l) := by
  unfold spacesStr
  infer_instance

/-- The optional hours component `<Nh >` of a duration token: digits, the
letter `h`, then optional whitespace; absent iff the hours value is. -/
def hourPart : Option Nat → List Char → Prop
  | some hv, l => ∃ hd sp, l = hd ++ 'h' :: sp ∧ digitsStr hd ∧ spacesStr sp ∧ hv = natOfDigits hd
  | none, l => l = []

/-- The optional seconds component `<Ns>` of a duration token: digits then
the letter `s`; absent iff the seconds value is. -/
def secPart : Option Nat → List Char → Prop
  | some sv, l => ∃ sd, l = sd ++ ['s'] ∧ digitsStr sd ∧ sv = natOfDigits sd
  | none, l => l = []

/--
A parenthesized duration token of the shape `(<Nh ><Nm> <Ns>,` — an
opening parenthesis, an optional hours part, a mandatory minutes part
(digits then `m`), optional whitespace, an optional seconds part, and a
comma — together with the numeric values of its components.
-/
def isToken (tok : List Char) (h : Option Nat) (m : Nat) (s : Option Nat) : Prop :=
  ∃ hp md sp2 sp,
    tok = '(' :: (hp ++ (md ++ 'm' :: (sp2 ++ (sp ++ [','])))) ∧
    hourPart h hp ∧ digitsStr md ∧ m = natOfDigits md ∧ spacesStr sp2 ∧ secPart s sp

/-- A duration token with component values `h`, `m`, `s` starts at
position `i` of the string `t`. -/
def tokenFrom (t : List Char) (i : Nat) (h : Option Nat) (m : Nat) (s : Option Nat) : Prop :=
  ∃ tok rest, t.drop i = tok ++ rest ∧ isToken tok h m s

/-- Some duration token starts at position `i` of the string `t`. -/
def hasTokenAt (t : List Char) (i : Nat) : Prop :=
  ∃ h m s, tokenFrom t i h m s

end Script

namespace Script

/-- Head predicate: the first character of the list (if any) fails `p`. -/
def headNot (p : Char → Bool) : List Char → Prop
  | [] => True
  | c :: _ => p c = false

theorem takeDigits_append (d r : List Char) (h1 : ∀ c ∈ d, c.isDigit = true)
    (h2 : headNot Char.isDigit r) : takeDigits (d ++ r) = (d, r) := by
  induction d with
  | nil =>
    cases r with
    | nil => rfl
    | cons c cr =>
      have hc : c.isDigit = false := h2
      simp [takeDigits, hc]
  | cons c d ih =>
    have hc : c.isDigit = true := h1 c (by simp)
    have ih' := ih (fun x hx => h1 x (by simp [hx]))
    simp [takeDigits, hc, ih']

theorem takeSpaces_append (d r : List Char) (h1 : ∀ c ∈ d, isSpaceChar c = true)
    (h2 : headNot isSpaceChar r) : takeSpaces (d ++ r) = (d, r) := by
  induction d with
  | nil =>
    cases r with
    | nil => rfl
    | cons c cr =>
      have hc : isSpaceChar c = false := h2
      simp [takeSpaces, hc]
  | cons c d ih =>
    have hc : isSpaceChar c = true := h1 c (by simp)
    have ih' := ih (fun x hx => h1 x (by simp [hx]))
    simp [takeSpaces, hc, ih']

theorem takeDigits_sound (s : List Char) :
    (takeDigits s).1 ++ (takeDigits s).2 = s ∧
    (∀ c ∈ (takeDigits s).1, c.isDigit = true) ∧
    headNot Char.isDigit (takeDigits s).2 := by
  induction s with
  | nil => exact ⟨rfl, by simp [takeDigits], trivial⟩
  | cons c rest ih =>
    by_cases hc : c.isDigit
    · simp only [takeDigits, hc, if_true]
      refine ⟨by simp [ih.1], ?_, ih.2.2⟩
      intro x hx
      rcases List.mem_cons.mp hx with h | h
      · exact h ▸ hc
      · exact ih.2.1 x h
    · simp only [takeDigits, hc, if_false]
      exact ⟨rfl, by simp, by simp [headNot, hc]⟩

theorem takeSpaces_sound (s : List Char) :
    (takeSpaces s).1 ++ (takeSpaces s).2 = s ∧
    (∀ c ∈ (takeSpaces s).1, isSpaceChar c = true) ∧
    headNot isSpaceChar (takeSpaces s).2 := by
  induction s with
  | nil => exact ⟨rfl, by simp [takeSpaces], trivial⟩
  | cons c rest ih =>
    by_cases hc : isSpaceChar c
    · simp only [takeSpaces, hc, if_true]
      refine ⟨by simp [ih.1], ?_, ih.2.2⟩
      intro x hx
      rcases List.mem_cons.mp hx with h | h
      · exact h ▸ hc
      · exact ih.2.1 x h
    · simp only [takeSpaces, hc, if_false]
      exact ⟨rfl, by simp, by simp [headNot, hc]⟩

theorem digit_not_space (c : Char) (h : c.isDigit = true) : isSpaceChar c = false := by
  simp only [isSpaceChar, Bool.or_eq_false_iff, beq_eq_false_iff_ne, ne_eq]
  refine ⟨⟨⟨⟨⟨?_, ?_⟩, ?_⟩, ?_⟩, ?_⟩, ?_⟩ <;> (rintro rfl; exact absurd h (by decide))

end Script

namespace Script

theorem isEmpty_false_of_ne_nil {l : List Char} (h : l ≠ []) : l.isEmpty = false := by
  cases l with
  | nil => exact absurd rfl h
  | cons a b => rfl

theorem takeDigits_eq_sound (s d r : List Char) (h : takeDigits s = (d, r)) :
    s = d ++ r ∧ (∀ c ∈ d, c.isDigit = true) ∧ headNot Char.isDigit r := by
  have h2 := takeDigits_sound s
  rw [h] at h2
  exact ⟨h2.1.symm, h2.2⟩

theorem takeSpaces_eq_sound (s d r : List Char) (h : takeSpaces s = (d, r)) :
    s = d ++ r ∧ (∀ c ∈ d, isSpaceChar c = true) ∧ headNot isSpaceChar r := by
  have h2 := takeSpaces_sound s
  rw [h] at h2
  exact ⟨h2.1.symm, h2.2⟩

theorem matchMS_complete (h : Option Nat) (s : Option Nat) (md sp2 sp rest : List Char)
    (hmd : digitsStr md) (hsp2 : spacesStr sp2) (hsp : secPart s sp) :
    matchMS h (md ++ 'm' :: (sp2 ++ (sp ++ ',' :: rest))) = some (h, natOfDigits md, s) := by
  have hmd3 : md.isEmpty = false := isEmpty_false_of_ne_nil hmd.1
  cases s with
  | none =>
    have hsp0 : sp = [] := hsp
    subst hsp0
    have h1 : takeDigits (md ++ 'm' :: (sp2 ++ ([] ++ ',' :: rest)))
        = (md, 'm' :: (sp2 ++ ([] ++ ',' :: rest))) :=
      takeDigits_append _ _ hmd.2 ((by decide : ('m').isDigit = false))
    have h2 : takeSpaces (sp2 ++ ([] ++ ',' :: rest)) = (sp2, ',' :: rest) := by
      simpa using takeSpaces_append sp2 (',' :: rest) hsp2 ((by decide : isSpaceChar ',' = false))
    have h3 : takeDigits (',' :: rest) = ([], ',' :: rest) :=
      takeDigits_append [] _ (by simp) ((by decide : (',').isDigit = false))
    simp only [matchMS, h1, h2, h3, hmd3]
    simp
  | some sv =>
    obtain ⟨sd, rfl, hsd, rfl⟩ := hsp
    have hsd3 : sd.isEmpty = false := isEmpty_false_of_ne_nil hsd.1
    have e1 : (sd ++ ['s']) ++ ',' :: rest = sd ++ 's' :: ',' :: rest := by simp
    rw [e1]
    have h1 : takeDigits (md ++ 'm' :: (sp2 ++ (sd ++ 's' :: ',' :: rest)))
        = (md, 'm' :: (sp2 ++ (sd ++ 's' :: ',' :: rest))) :=
      takeDigits_append _ _ hmd.2 ((by decide : ('m').isDigit = false))
    have h2 : takeSpaces (sp2 ++ (sd ++ 's' :: ',' :: rest))
        = (sp2, sd ++ 's' :: ',' :: rest) := by
      refine takeSpaces_append _ _ hsp2 ?_
      rcases sd with _ | ⟨sc, sd'⟩
      · exact absurd rfl hsd.1
      · exact digit_not_space sc (hsd.2 sc (by simp))
    have h3 : takeDigits (sd ++ 's' :: ',' :: rest) = (sd, 's' :: ',' :: rest) :=
      takeDigits_append _ _ hsd.2 ((by decide : ('s').isDigit = false))
    simp only [matchMS, h1, h2, h3, hmd3, hsd3]
    simp

theorem matchAt_complete (tok rest : List Char) (h : Option Nat) (m : Nat) (s : Option Nat)
    (ht : isToken tok h m s) : matchAt (tok ++ rest) = some (h, m, s) := by
  obtain ⟨hp, md, sp2, sp, rfl, hhp, hmd, rfl, hsp2, hsp⟩ := ht
  have e1 : ('(' :: (hp ++ (md ++ 'm' :: (sp2 ++ (sp ++ [',']))))) ++ rest
      = '(' :: (hp ++ (md ++ 'm' :: (sp2 ++ (sp ++ ',' :: rest)))) := by simp
  rw [e1]
  cases h with
  | none =>
    have hhp0 : hp = [] := hhp
    subst hhp0
    have hmain := matchMS_complete none s md sp2 sp rest hmd hsp2 hsp
    have h1 : takeDigits (md ++ 'm' :: (sp2 ++ (sp ++ ',' :: rest)))
        = (md, 'm' :: (sp2 ++ (sp ++ ',' :: rest))) :=
      takeDigits_append _ _ hmd.2 ((by decide : ('m').isDigit = false))
    have hmd3 : md.isEmpty = false := isEmpty_false_of_ne_nil hmd.1
    have hh : hoursThen (md ++ 'm' :: (sp2 ++ (sp ++ ',' :: rest))) = none := by
      simp only [hoursThen, h1, hmd3]
      simp
    simp only [List.nil_append, matchAt, hh]
    simp [hmain]
  | some hv =>
    obtain ⟨hd, sp1, rfl, hhd, hsp1, rfl⟩ := hhp
    have e2 : (hd ++ 'h' :: sp1) ++ (md ++ 'm' :: (sp2 ++ (sp ++ ',' :: rest)))
        = hd ++ 'h' :: (sp1 ++ (md ++ 'm' :: (sp2 ++ (sp ++ ',' :: rest)))) := by simp
    rw [e2]
    have h1 : takeDigits (hd ++ 'h' :: (sp1 ++ (md ++ 'm' :: (sp2 ++ (sp ++ ',' :: rest)))))
        = (hd, 'h' :: (sp1 ++ (md ++ 'm' :: (sp2 ++ (sp ++ ',' :: rest))))) :=
      takeDigits_append _ _ hhd.2 ((by decide : ('h').isDigit = false))
    have h2 : takeSpaces (sp1 ++ (md ++ 'm' :: (sp2 ++ (sp ++ ',' :: rest))))
        = (sp1, md ++ 'm' :: (sp2 ++ (sp ++ ',' :: rest))) := by
      refine takeSpaces_append _ _ hsp1 ?_
      rcases md with _ | ⟨mc, md'⟩
      · exact absurd rfl hmd.1
      · exact digit_not_space mc (hmd.2 mc (by simp))
    have hhd3 : hd.isEmpty = false := isEmpty_false_of_ne_nil hhd.1
    have hmain := matchMS_complete (some (natOfDigits hd)) s md sp2 sp rest hmd hsp2 hsp
    have hh : hoursThen (hd ++ 'h' :: (sp1 ++ (md ++ 'm' :: (sp2 ++ (sp ++ ',' :: rest)))))
        = some (some (natOfDigits hd), natOfDigits md, s) := by
      simp only [hoursThen, h1, h2, hhd3]
      simp [hmain]
    simp only [matchAt, hh]

theorem matchMS_sound (h : Option Nat) (str : List Char) (r : Option Nat × Nat × Option Nat)
    (hm : matchMS h str = some r) :
    r.1 = h ∧ ∃ md sp2 sp rest, str = md ++ 'm' :: (sp2 ++ (sp ++ ',' :: rest)) ∧
      digitsStr md ∧ r.2.1 = natOfDigits md ∧ spacesStr sp2 ∧ secPart r.2.2 sp := by
  rcases htd : takeDigits str with ⟨md, r1⟩
  have hd1 := takeDigits_eq_sound str md r1 htd
  simp only [matchMS, htd] at hm
  split at hm
  · exact Option.noConfusion hm
  · rename_i hne
    have hmdne : md ≠ [] := by
      intro hnil
      rw [hnil] at hne
      exact hne rfl
    split at hm
    · rename_i s2
      rcases hts : takeSpaces s2 with ⟨sp2, s3⟩
      have hs2 := takeSpaces_eq_sound s2 sp2 s3 hts
      rcases htd2 : takeDigits s3 with ⟨sd, r2⟩
      have hd2 := takeDigits_eq_sound s3 sd r2 htd2
      rw [hts, htd2] at hm
      simp only at hm
      split at hm
      · split at hm
        · rename_i rest0
          cases hm
          refine ⟨rfl, md, sp2, [], rest0, ?_, ⟨hmdne, hd1.2.1⟩, rfl, hs2.2.1, rfl⟩
          rw [hd1.1, hs2.1, hd2.1]
          simp
        · exact Option.noConfusion hm
      · rename_i hne2
        have hsdne : sd ≠ [] := by
          intro hnil
          rw [hnil] at hne2
          exact hne2 rfl
        split at hm
        · rename_i rest0
          cases hm
          refine ⟨rfl, md, sp2, sd ++ ['s'], rest0, ?_, ⟨hmdne, hd1.2.1⟩, rfl, hs2.2.1,
            sd, rfl, ⟨hsdne, hd2.2.1⟩, rfl⟩
          rw [hd1.1, hs2.1, hd2.1]
          simp
        · exact Option.noConfusion hm
    · exact Option.noConfusion hm

end Script

namespace Script

theorem matchAt_sound (str : List Char) (r : Option Nat × Nat × Option Nat)
    (hm : matchAt str = some r) :
    ∃ tok rest, str = tok ++ rest ∧ isToken tok r.1 r.2.1 r.2.2 := by
  rw [matchAt.eq_def] at hm
  split at hm
  · rename_i rest0
    split at hm
    · rename_i r2 heqH
      cases hm
      rcases htd : takeDigits rest0 with ⟨hd, r1⟩
      have hdf := takeDigits_eq_sound rest0 hd r1 htd
      simp only [hoursThen, htd] at heqH
      split at heqH
      · exact Option.noConfusion heqH
      · rename_i hne
        have hhdne : hd ≠ [] := fun hnil => hne (by rw [hnil]; rfl)
        split at heqH
        · rename_i r2'
          rcases hts : takeSpaces r2' with ⟨sp1, r3⟩
          have hspf := takeSpaces_eq_sound r2' sp1 r3 hts
          rw [hts] at heqH
          simp only at heqH
          have hs := matchMS_sound _ _ _ heqH
          obtain ⟨hr1, md, sp2, sp, rest1, hdec, hmd, hr2, hsp2, hsp⟩ := hs
          refine ⟨'(' :: ((hd ++ 'h' :: sp1) ++ (md ++ 'm' :: (sp2 ++ (sp ++ [','])))), rest1, ?_, ?_⟩
          · rw [hdf.1, hspf.1, hdec]
            simp
          · refine ⟨hd ++ 'h' :: sp1, md, sp2, sp, by simp, ?_, hmd, hr2, hsp2, hsp⟩
            rw [hr1]
            exact ⟨hd, sp1, rfl, ⟨hhdne, hdf.2.1⟩, hspf.2.1, rfl⟩
        · exact Option.noConfusion heqH
    · rename_i heqH
      have hs := matchMS_sound _ _ _ hm
      obtain ⟨hr1, md, sp2, sp, rest1, hdec, hmd, hr2, hsp2, hsp⟩ := hs
      refine ⟨'(' :: ([] ++ (md ++ 'm' :: (sp2 ++ (sp ++ [','])))), rest1, ?_, ?_⟩
      · rw [hdec]
        simp
      · refine ⟨[], md, sp2, sp, by simp, ?_, hmd, hr2, hsp2, hsp⟩
        rw [hr1]
        rfl
  · exact Option.noConfusion hm

theorem matchAt_iff_tokenFrom (t : List Char) (i : Nat) (h : Option Nat) (m : Nat) (s : Option Nat) :
    matchAt (t.drop i) = some (h, m, s) ↔ tokenFrom t i h m s := by
  constructor
  · intro hm
    obtain ⟨tok, rest, he, ht⟩ := matchAt_sound _ _ hm
    exact ⟨tok, rest, he, ht⟩
  · rintro ⟨tok, rest, he, ht⟩
    rw [he]
    exact matchAt_complete tok rest h m s ht

theorem searchDur_none_iff (t : List Char) :
    searchDur t = none ↔ ∀ i, matchAt (t.drop i) = none := by
  induction t with
  | nil =>
    constructor
    · intro _ i
      rw [List.drop_nil]
      rfl
    · intro _
      rfl
  | cons c rest ih =>
    cases hma : matchAt (c :: rest) with
    | some r =>
      simp only [searchDur, hma]
      constructor
      · intro hq
        exact Option.noConfusion hq
      · intro hall
        have h0 := hall 0
        rw [List.drop_zero, hma] at h0
        exact Option.noConfusion h0
    | none =>
      simp only [searchDur, hma]
      rw [ih]
      constructor
      · intro hall i
        cases i with
        | zero => rw [List.drop_zero]; exact hma
        | succ k => rw [List.drop_succ_cons]; exact hall k
      · intro hall i
        have := hall (i + 1)
        rwa [List.drop_succ_cons] at this

theorem searchDur_at : ∀ (t : List Char) (i : Nat) (r : Option Nat × Nat × Option Nat),
    matchAt (t.drop i) = some r → (∀ j, j < i → matchAt (t.drop j) = none) →
    searchDur t = some r := by
  intro t
  induction t with
  | nil =>
    intro i r hm _
    rw [List.drop_nil] at hm
    exact Option.noConfusion hm
  | cons c rest ih =>
    intro i r hm hb
    cases i with
    | zero =>
      rw [List.drop_zero] at hm
      simp only [searchDur, hm]
    | succ k =>
      have h0 : matchAt (c :: rest) = none := by
        have := hb 0 (Nat.succ_pos k)
        rwa [List.drop_zero] at this
      rw [List.drop_succ_cons] at hm
      simp only [searchDur, h0]
      refine ih k r hm ?_
      intro j hj
      have := hb (j + 1) (Nat.succ_lt_succ hj)
      rwa [List.drop_succ_cons] at this

theorem searchDur_some (t : List Char) (r : Option Nat × Nat × Option Nat)
    (hs : searchDur t = some r) : ∃ i, matchAt (t.drop i) = some r := by
  induction t with
  | nil => exact Option.noConfusion hs
  | cons c rest ih =>
    cases hma : matchAt (c :: rest) with
    | some r0 =>
      simp only [searchDur, hma] at hs
      cases hs
      exact ⟨0, hma⟩
    | none =>
      simp only [searchDur, hma] at hs
      obtain ⟨i, hi⟩ := ih hs
      exact ⟨i + 1, by rwa [List.drop_succ_cons]⟩

theorem parse_duration_spec (t : List Char) :
    (parse_duration t = none ↔ ∀ i, ¬ hasTokenAt t i) ∧
    (∀ i h m s, tokenFrom t i h m s → (∀ j, j < i → ¬ hasTokenAt t j) →
      parse_duration t = some ((h.getD 0) * 3600 + m * 60 + (s.getD 0))) := by
  constructor
  · cases hs : searchDur t with
    | none =>
      constructor
      · intro _ i ht
        obtain ⟨h, m, s, htf⟩ := ht
        have hmi := (matchAt_iff_tokenFrom t i h m s).mpr htf
        rw [(searchDur_none_iff t).mp hs i] at hmi
        exact Option.noConfusion hmi
      · intro _
        unfold parse_duration
        rw [hs]
    | some r =>
      constructor
      · intro hq
        unfold parse_duration at hq
        rw [hs] at hq
        exact Option.noConfusion hq
      · intro hall
        exfalso
        obtain ⟨i, hi⟩ := searchDur_some t r hs
        rcases r with ⟨h, m, s⟩
        exact hall i ⟨h, m, s, (matchAt_iff_tokenFrom t i h m s).mp hi⟩
  · intro i h m s htf hbef
    have hmi := (matchAt_iff_tokenFrom t i h m s).mpr htf
    have hb : ∀ j, j < i → matchAt (t.drop j) = none := by
      intro j hj
      cases hmaj : matchAt (t.drop j) with
      | none => rfl
      | some rj =>
        exfalso
        rcases rj with ⟨hj2, mj, sj⟩
        exact hbef j hj ⟨hj2, mj, sj, (matchAt_iff_tokenFrom t j hj2 mj sj).mp hmaj⟩
    have hfin := searchDur_at t i _ hmi hb
    unfold parse_duration
    rw [hfin]

end Script

namespace Script

/-- Witness for C2: the title `(1h 21m, 704x512)` contains the token
`(1h 21m,` starting at position 0 with hours 1 and minutes 21, and
`parse_duration` returns `1*3600 + 21*60 = 4860`. -/
theorem parse_duration_spec_witness :
    parse_duration ("(1h 21m, 704x512)".toList) = some 4860 := by
  have htf : tokenFrom ("(1h 21m, 704x512)".toList) 0 (some 1) 21 none := by
    refine ⟨"(1h 21m,".toList, " 704x512)".toList, by decide, ?_⟩
    refine ⟨"1h ".toList, "21".toList, [], [], by decide, ?_, ⟨by decide, by decide⟩, by decide, ?_, rfl⟩
    · exact ⟨"1".toList, " ".toList, by decide, ⟨by decide, by decide⟩, by decide, by decide⟩
    · intro c hc
      exact absurd hc (by simp)
  have hres := (parse_duration_spec ("(1h 21m, 704x512)".toList)).2 0 (some 1) 21 none htf
    (fun j hj => absurd hj (Nat.not_lt_zero j))
  exact hres

end Script

namespace Script

/-- Python `int(x)` applied to a string: optional surrounding whitespace,
an optional sign, then one or more decimal digits (underscore separators
are not modelled).  Returns `none` when the string is not a valid integer
literal, where Python raises `ValueError`. -/
def str_to_int (s : List Char) : Option Int :=
  match ((s.dropWhile isSpaceChar).reverse.dropWhile isSpaceChar).reverse with
  | '+' :: ds => if ds ≠ [] ∧ ds.all Char.isDigit then some (natOfDigits ds) else none
  | '-' :: ds => if ds ≠ [] ∧ ds.all Char.isDigit then some (-(natOfDigits ds : Int)) else none
  | ds => if ds ≠ [] ∧ ds.all Char.isDigit then some (natOfDigits ds) else none

/-- A JSON value stored in the manifest's `size` field: the input holds
either a number (modelled as an integer, since `int` truncates any float
to an integer without failing) or a string. -/
inductive SizeVal where
  | intVal (n : Int)
  | strVal (s : List Char)
deriving DecidableEq

/-- `int(video.get('size', 0))` (`src/script.py` lines 140-141): an
absent field defaults to `0`; a numeric field is converted directly; a
string field must parse as an integer, else Python raises `ValueError`
(modelled as `none`). -/
def size_to_int : Option SizeVal → Option Int
  | none => some 0
  | some (.intVal n) => some n
  | some (.strVal s) => str_to_int s

/-- One manifest record.  Every field is read with `.get(...)`, so each
is optional; `filename` is informational only. -/
structure VideoRecord where
  identifier : Option (List Char)
  url : Option (List Char)
  filename : Option (List Char)
  title : Option (List Char)
  size : Option SizeVal
deriving DecidableEq

/-- Python truthiness of an optional string (`if not identifier`,
`if not url or not identifier`): `None` and the empty string are falsy. -/
def truthy : Option (List Char) → Bool
  | none => false
  | some s => !s.isEmpty

/-- Lookup in the `videos_by_id` dict, modelled as an association list in
key insertion order (Python 3.7+ dict semantics). -/
def lookupAssoc : List (List Char × VideoRecord) → List Char → Option VideoRecord
  | [], _ => none
  | (k, v) :: rest, key => if k = key then some v else lookupAssoc rest key

/-- Assignment `videos_by_id[identifier] = video` to an existing key:
the value is replaced, the key keeps its original position. -/
def updateAssoc : List (List Char × VideoRecord) → List Char → VideoRecord →
    List (List Char × VideoRecord)
  | [], _, _ => []
  | (k, v) :: rest, key, nv =>
    if k = key then (k, nv) :: rest else (k, v) :: updateAssoc rest key nv

/-- One iteration of the deduplication loop (`src/script.py` lines
131-143).  A record with an absent or empty identifier is passed over
silently (`continue`), touching no counter.  On a duplicate identifier
the current and the new size are converted with `int(...)`;
`Except.error ()` models the uncaught `ValueError` raised there by a size
that is not coercible, which aborts the whole run. -/
def dedupStep (m : List (List Char × VideoRecord)) (video : VideoRecord) :
    Except Unit (List (List Char × VideoRecord)) :=
  match video.identifier with
  | none => .ok m
  | some ident =>
    if ident.isEmpty then .ok m
    else
      match lookupAssoc m ident with
      | none => .ok (m ++ [(ident, video)])
      | some cur =>
        match size_to_int cur.size with
        | none => .error ()
        | some current_size =>
          match size_to_int video.size with
          | none => .error ()
          | some new_size =>
            .ok (if new_size < current_size ∧ new_size > 0 then updateAssoc m ident video else m)

def dedupAux : List (List Char × VideoRecord) → List VideoRecord →
    Except Unit (List (List Char × VideoRecord))
  | m, [] => .ok m
  | m, v :: rest =>
    match dedupStep m v with
    | .error e => .error e
    | .ok m2 => dedupAux m2 rest

/-- Deduplication by identifier (`src/script.py` lines 130-145): builds
the `videos_by_id` mapping; `list(videos_by_id.values())` is
`(dedup vs).map Prod.snd` on the ok path. -/
def dedup (videos : List VideoRecord) : Except Unit (List (List Char × VideoRecord)) :=
  dedupAux [] videos

end Script

namespace Script

/--
C1 (amended): for two records sharing a nonempty identifier whose sizes
both coerce to integers, the second record replaces the first iff its
size is strictly smaller than the first's AND strictly positive.  With
both sizes positive this retains the record with the smaller size (ties
keep the first-seen record), and a zero-size later record never wins;
but a zero-size record that appears first is retained even when the
later duplicate has positive size.
-/
theorem dedup_smaller_positive (r1 r2 : VideoRecord) (ident : List Char) (s1 s2 : Int)
    (h1 : r1.identifier = some ident) (h2 : r2.identifier = some ident) (hne : ident ≠ [])
    (hs1 : size_to_int r1.size = some s1) (hs2 : size_to_int r2.size = some s2) :
    dedup [r1, r2] = .ok [(ident, if s2 < s1 ∧ 0 < s2 then r2 else r1)] := by
  have hemp : ident.isEmpty = false := isEmpty_false_of_ne_nil hne
  have hstep1 : dedupStep [] r1 = .ok [(ident, r1)] := by
    simp [dedupStep, h1, hemp, lookupAssoc]
  have hlook : lookupAssoc [(ident, r1)] ident = some r1 := by
    simp [lookupAssoc]
  have hstep2 : dedupStep [(ident, r1)] r2
      = .ok (if s2 < s1 ∧ s2 > 0 then [(ident, r2)] else [(ident, r1)]) := by
    simp only [dedupStep, h2, hemp, Bool.false_eq_true, if_false, hlook, hs1, hs2]
    by_cases hc : s2 < s1 ∧ s2 > 0
    · simp [hc, updateAssoc]
    · simp [hc]
  show dedupAux [] [r1, r2] = _
  simp only [dedupAux, hstep1, hstep2]
  by_cases hc : s2 < s1 ∧ 0 < s2
  · simp [hc]
  · simp [hc]

/-- First-seen record with size 0, for the C1 counterexample. -/
def recSizeZero : VideoRecord :=
  ⟨some "abc".toList, some "u1".toList, none, none, some (.intVal 0)⟩

/-- Later duplicate with size 300, for the C1 counterexample. -/
def recSize300 : VideoRecord :=
  ⟨some "abc".toList, some "u2".toList, none, none, some (.intVal 300)⟩

/--
C1 counterexample: two records share identifier `abc` with sizes 0 and
300, the zero-size record first.  The code keeps the zero-size record
(`300 < 0` is false, so no replacement happens), contradicting the claim
that a zero-size record is never the retained one regardless of order.
-/
theorem dedup_zero_first_cex :
    dedup [recSizeZero, recSize300] = .ok [("abc".toList, recSizeZero)] ∧
    recSizeZero.size = some (.intVal 0) ∧ recSize300.size = some (.intVal 300) ∧
    recSizeZero ≠ recSize300 := by
  refine ⟨rfl, rfl, rfl, by decide⟩

/-- Record with size 500, for the C1 witness. -/
def recSize500 : VideoRecord :=
  ⟨some "abc".toList, some "u1".toList, none, none, some (.intVal 500)⟩

/-- Record with size 200, for the C1 witness. -/
def recSize200 : VideoRecord :=
  ⟨some "abc".toList, some "u2".toList, none, none, some (.intVal 200)⟩

/-- Witness for C1 (amended): sizes 500 then 200 retain the 200 record. -/
theorem dedup_smaller_positive_witness :
    dedup [recSize500, recSize200] = .ok [("abc".toList, recSize200)] := by
  have h := dedup_smaller_positive recSize500 recSize200 ("abc".toList) 500 200
    rfl rfl (by decide) rfl rfl
  rw [if_pos (by norm_num)] at h
  exact h

/--
C7 (amended): an absent `size` field is treated as 0 during
deduplication; but a size that is not coercible to an integer raises an
uncaught `ValueError` when the identifier is duplicated (the conversion
runs only on the duplicate branch), aborting the whole run with exit
code 1 — the error is not isolated to the item.
-/
theorem size_handling :
    size_to_int none = some 0 ∧
    (∀ r1 r2 ident, r1.identifier = some ident → r2.identifier = some ident → ident ≠ [] →
      (size_to_int r1.size = none ∨ size_to_int r2.size = none) →
      dedup [r1, r2] = .error ()) := by
  refine ⟨rfl, ?_⟩
  intro r1 r2 ident h1 h2 hne hbad
  have hemp : ident.isEmpty = false := isEmpty_false_of_ne_nil hne
  have hstep1 : dedupStep [] r1 = .ok [(ident, r1)] := by
    simp [dedupStep, h1, hemp, lookupAssoc]
  have hlook : lookupAssoc [(ident, r1)] ident = some r1 := by
    simp [lookupAssoc]
  have hstep2 : dedupStep [(ident, r1)] r2 = .error () := by
    simp only [dedupStep, h2, hemp, Bool.false_eq_true, if_false, hlook]
    rcases hbad with hb | hb
    · simp [hb]
    · cases hs1 : size_to_int r1.size with
      | none => simp
      | some s1 => simp [hb]
  show dedupAux [] [r1, r2] = _
  simp only [dedupAux, hstep1, hstep2]

/-- Record with a well-formed size, for the C7 counterexample. -/
def recGoodSize : VideoRecord :=
  ⟨some "a".toList, some "u".toList, none, none, some (.intVal 100)⟩

/-- Record whose size is the non-numeric string `abc`, for the C7
counterexample. -/
def recBadSize : VideoRecord :=
  ⟨some "a".toList, some "u".toList, none, none, some (.strVal "abc".toList)⟩

/--
C7 counterexample: a record whose size is the string `abc` (not
coercible) meeting a duplicate identifier makes deduplication raise, so
the run aborts rather than treating the size as 0 and continuing.
-/
theorem size_invalid_cex :
    str_to_int ("abc".toList) = none ∧
    dedup [recGoodSize, recBadSize] = .error () := by
  exact ⟨rfl, rfl⟩

/-- Witness for C7 (amended), at concrete records: good size 100 first,
uncoercible string size second. -/
theorem size_handling_witness :
    dedup [recGoodSize, recBadSize] = .error () := by
  exact (size_handling.2 recGoodSize recBadSize ("a".toList) rfl rfl (by decide)
    (Or.inr rfl))

end Script

namespace Script

/-- Python truthiness of the parsed duration (`if duration:` at
`src/script.py` line 189): `None` and `0` are both falsy. -/
def truthyNat : Option Nat → Bool
  | none => false
  | some n => n != 0

/-- Python truthiness of the probed duration (`if duration:` at line
196): `None` and `0.0` are both falsy. -/
def truthyRat : Option ℚ → Bool
  | none => false
  | some q => q != 0

/-- Outcome of one `ffprobe` subprocess invocation, as observed by
`get_video_duration`: completion with an exit code and (when the printed
text parses as a float) the printed duration, a timeout, or any other
exception.  Durations are modelled as rationals. -/
inductive ProbeOutcome where
  | completed (exitCode : Int) (stdoutVal : Option ℚ)
  | timedOut
  | excRaised

/-- `get_video_duration` (`src/script.py` lines 40-57): returns
`float(stdout)` when the probe exits 0 (`none` when the output does not
parse — `float` raises and the `except` catches it); a non-zero exit,
timeout or any other exception yields `none`.  Never raises. -/
def get_video_duration : ProbeOutcome → Option ℚ
  | .completed code v => if code == 0 then v else none
  | .timedOut => none
  | .excRaised => none

/-- The duration source and seek time chosen for one record. -/
structure SeekOutcome where
  seek : ℚ
  probeInvoked : Bool
  usedFallback : Bool
deriving DecidableEq

/-- Duration resolution and seek-time computation for one record
(`src/script.py` lines 184-202): parse the title; if that is truthy use
half of it; else invoke the probe (`probeResult` is the value
`get_video_duration` returns for this URL, and `probeInvoked` records
that the script reaches this call); if that is truthy use half of it;
else use the constant 30 (`usedFallback`). -/
def computeSeek (title : List Char) (probeResult : Option ℚ) : SeekOutcome :=
  if truthyNat (parse_duration title) then
    ⟨(((parse_duration title).getD 0 : Nat) : ℚ) / 2, false, false⟩
  else if truthyRat probeResult then
    ⟨(probeResult.getD 0) / 2, true, false⟩
  else
    ⟨30, true, true⟩

end Script

namespace Script

theorem truthyNat_false_iff (d : Option Nat) :
    truthyNat d = false ↔ d = none ∨ d = some 0 := by
  cases d with
  | none => simp [truthyNat]
  | some n => simp [truthyNat]

theorem truthyRat_false_iff (q : Option ℚ) :
    truthyRat q = false ↔ q = none ∨ q = some 0 := by
  cases q with
  | none => simp [truthyRat]
  | some v => simp [truthyRat]

/--
C3 (amended): when a nonzero duration is known from the title parse, the
seek time is half of it; when the title yields no value or zero, a
nonzero probed duration gives half of it; when neither source yields a
nonzero duration (including a duration of exactly 0), the seek time is
the fallback constant 30 itself, not 30/2.  A known duration of 0 does
not give seek 0: it is treated like an unknown duration.
-/
theorem seek_computation (title : List Char) (probeResult : Option ℚ) :
    (∀ d : Nat, parse_duration title = some d → d ≠ 0 →
      (computeSeek title probeResult).seek = (d : ℚ) / 2) ∧
    ((parse_duration title = none ∨ parse_duration title = some 0) →
      ∀ q : ℚ, probeResult = some q → q ≠ 0 →
      (computeSeek title probeResult).seek = q / 2) ∧
    ((parse_duration title = none ∨ parse_duration title = some 0) →
      (probeResult = none ∨ probeResult = some 0) →
      (computeSeek title probeResult).seek = 30) := by
  refine ⟨?_, ?_, ?_⟩
  · intro d hd hne
    simp [computeSeek, hd, truthyNat, hne]
  · intro hp q hq hne
    have ht : truthyNat (parse_duration title) = false := (truthyNat_false_iff _).mpr hp
    simp [computeSeek, ht, hq, truthyRat, hne]
  · intro hp hq
    have ht : truthyNat (parse_duration title) = false := (truthyNat_false_iff _).mpr hp
    have ht2 : truthyRat probeResult = false := (truthyRat_false_iff _).mpr hq
    simp [computeSeek, ht, ht2]

/--
C3 counterexample: the title `(0m, 640x480)` parses to the known
duration 0, yet the seek time is the fallback 30, not 0/2 = 0.
-/
theorem seek_zero_duration_cex :
    parse_duration ("(0m, 640x480)".toList) = some 0 ∧
    (computeSeek ("(0m, 640x480)".toList) none).seek = 30 ∧
    ((0 : ℚ) / 2 ≠ 30) := by
  refine ⟨by decide, by decide, by norm_num⟩

/-- Witness for C3 (amended): title parsing to 120 seconds seeks at 60;
no duration at all seeks at 30. -/
theorem seek_computation_witness :
    (computeSeek ("(2m, 640x480)".toList) none).seek = 60 ∧
    (computeSeek ("no duration here".toList) none).seek = 30 := by
  constructor
  · have h := (seek_computation ("(2m, 640x480)".toList) none).1 120 (by decide) (by decide)
    rw [h]
    norm_num
  · exact (seek_computation ("no duration here".toList) none).2.2 (Or.inl (by decide))
      (Or.inl rfl)

/--
C4 (amended): the probe tier is reached if and only if the title parse
yields no value OR the value 0 (Python's `if duration:` conflates them),
and the fallback constant is used if and only if additionally the probe
yields no value or the value 0.  In particular a title parsing to 0
seconds DOES trigger the probe.
-/
theorem three_tier_priority (title : List Char) (probeResult : Option ℚ) :
    ((computeSeek title probeResult).probeInvoked = true ↔
      (parse_duration title = none ∨ parse_duration title = some 0)) ∧
    ((computeSeek title probeResult).usedFallback = true ↔
      ((parse_duration title = none ∨ parse_duration title = some 0) ∧
       (probeResult = none ∨ probeResult = some 0))) := by
  by_cases h1 : truthyNat (parse_duration title)
  · have hn : ¬ (parse_duration title = none ∨ parse_duration title = some 0) := by
      rw [← truthyNat_false_iff]
      simp [h1]
    simp [computeSeek, h1, hn]
  · have hp : parse_duration title = none ∨ parse_duration title = some 0 :=
      (truthyNat_false_iff _).mp (by simpa using h1)
    by_cases h2 : truthyRat probeResult
    · have hq : ¬ (probeResult = none ∨ probeResult = some 0) := by
        rw [← truthyRat_false_iff]
        simp [h2]
      simp [computeSeek, h1, h2, hp, hq]
    · have hq : probeResult = none ∨ probeResult = some 0 :=
        (truthyRat_false_iff _).mp (by simpa using h2)
      simp [computeSeek, h1, h2, hp, hq]

/--
C4 counterexample: the title `(0m, 640x480)` parses successfully to 0
seconds, yet the probe tier is still invoked, because `if duration:`
treats a parsed 0 as false.
-/
theorem zero_parse_triggers_probe_cex :
    parse_duration ("(0m, 640x480)".toList) = some 0 ∧
    (computeSeek ("(0m, 640x480)".toList) none).probeInvoked = true := by
  exact ⟨by decide, by decide⟩

end Script

namespace Script

/-- Outcome of one `ffmpeg` subprocess invocation, as observed by
`generate_thumbnail`: completion with an exit code and captured standard
error text, a timeout after 60 time units, or any other exception. -/
inductive ProcOutcome where
  | completed (exitCode : Int) (stderrTxt : List Char)
  | timedOut
  | excRaised

/-- `generate_thumbnail` result (`src/script.py` lines 59-104): `true`
exactly when the process completed with exit code 0; a non-zero exit,
timeout, or any other exception yields `false`.  The function is total:
every failure mode is converted to a boolean, nothing propagates. -/
def generate_thumbnail : ProcOutcome → Bool
  | .completed code _ => code == 0
  | .timedOut => false
  | .excRaised => false

/-- The diagnostic printed by `generate_thumbnail` on a non-zero exit:
the first 200 characters of the captured standard error
(`result.stderr[:200]`, line 96); nothing on the other outcomes. -/
def ffmpegErrorMsg : ProcOutcome → Option (List Char)
  | .completed code err => if code == 0 then none else some (err.take 200)
  | .timedOut => none
  | .excRaised => none

/-- One token of the constructed ffmpeg command line: a literal string
or the stringified seek number. -/
inductive Arg where
  | lit (s : List Char)
  | num (q : ℚ)
deriving DecidableEq

/-- Python truthiness of `seek_time` (`if seek_time:` at `src/script.py`
line 75): `None`, `0` and `0.0` are all falsy. -/
def truthySeek : Option ℚ → Bool
  | none => false
  | some q => q != 0

/-- The ffmpeg command constructed by `generate_thumbnail`
(`src/script.py` lines 70-84): `ffmpeg -y [-ss <seek>] -i <url>
-vframes 1 -q:v 2 -vf scale=320:-1 <output_path>`. -/
def buildCmd (video_url output_path : List Char) (seek_time : Option ℚ) : List Arg :=
  [.lit "ffmpeg".toList, .lit "-y".toList]
  ++ (if truthySeek seek_time then [.lit "-ss".toList, .num (seek_time.getD 0)] else [])
  ++ [.lit "-i".toList, .lit video_url, .lit "-vframes".toList, .lit "1".toList,
      .lit "-q:v".toList, .lit "2".toList, .lit "-vf".toList, .lit "scale=320:-1".toList,
      .lit output_path]

end Script

namespace Script

/--
C6: `generate_thumbnail` is total (never raises past its boundary) and
returns `true` exactly when the external process exits 0; on a non-zero
exit it returns `false` and surfaces the first 200 characters of the
process's standard error; on timeout or any other exception it returns
`false` with no stderr excerpt.
-/
theorem generate_thumbnail_total (o : ProcOutcome) :
    (generate_thumbnail o = true ↔ ∃ err, o = .completed 0 err) ∧
    (∀ c err, o = .completed c err → c ≠ 0 →
      generate_thumbnail o = false ∧ ffmpegErrorMsg o = some (err.take 200)) ∧
    ((o = .timedOut ∨ o = .excRaised) →
      generate_thumbnail o = false ∧ ffmpegErrorMsg o = none) := by
  cases o with
  | completed c err =>
    by_cases hc : c = 0
    · subst hc
      refine ⟨by simp [generate_thumbnail], ?_, by simp⟩
      intro c2 err2 he hne
      cases he
      exact absurd rfl hne
    · refine ⟨by simp [generate_thumbnail, hc], ?_, by simp⟩
      intro c2 err2 he hne
      cases he
      simp [generate_thumbnail, ffmpegErrorMsg, hc]
  | timedOut =>
    refine ⟨by simp [generate_thumbnail], by simp, ?_⟩
    intro
    simp [generate_thumbnail, ffmpegErrorMsg]
  | excRaised =>
    refine ⟨by simp [generate_thumbnail], by simp, ?_⟩
    intro
    simp [generate_thumbnail, ffmpegErrorMsg]

/-- Witness for C6 at concrete outcomes: exit 3 with stderr `boom` gives
`false` and surfaces `boom`; exit 0 gives `true`. -/
theorem generate_thumbnail_total_witness :
    generate_thumbnail (.completed 3 ("boom".toList)) = false ∧
    ffmpegErrorMsg (.completed 3 ("boom".toList)) = some ("boom".toList.take 200) ∧
    generate_thumbnail (.completed 0 ("ok".toList)) = true := by
  have h := (generate_thumbnail_total (.completed 3 ("boom".toList))).2.1 3
    ("boom".toList) rfl (by norm_num)
  exact ⟨h.1, h.2, rfl⟩

/--
C9 (amended): the constructed command includes `-ss <seek>` (placed
before the input argument) iff a nonzero seek time is provided; a seek
time of 0 is treated exactly like an absent one, so Python's
`if seek_time:` omits the seek argument for it and ffmpeg's default
frame selection is used.
-/
theorem buildCmd_seek (u p : List Char) (sk : Option ℚ) :
    (∀ q : ℚ, sk = some q → q ≠ 0 →
      buildCmd u p sk =
        [.lit "ffmpeg".toList, .lit "-y".toList, .lit "-ss".toList, .num q,
         .lit "-i".toList, .lit u, .lit "-vframes".toList, .lit "1".toList,
         .lit "-q:v".toList, .lit "2".toList, .lit "-vf".toList,
         .lit "scale=320:-1".toList, .lit p]) ∧
    ((sk = none ∨ sk = some 0) →
      buildCmd u p sk =
        [.lit "ffmpeg".toList, .lit "-y".toList,
         .lit "-i".toList, .lit u, .lit "-vframes".toList, .lit "1".toList,
         .lit "-q:v".toList, .lit "2".toList, .lit "-vf".toList,
         .lit "scale=320:-1".toList, .lit p]) := by
  constructor
  · intro q hq hne
    simp [buildCmd, hq, truthySeek, hne]
  · intro hsk
    have ht : truthySeek sk = false := by
      rcases hsk with h | h <;> simp [h, truthySeek]
    simp [buildCmd, ht]

/--
C9 counterexample: a provided seek time of 0 produces the same command
as an absent seek time — no `-ss` argument at all — because
`if seek_time:` is false for 0.
-/
theorem buildCmd_zero_seek_cex :
    buildCmd ("u".toList) ("o".toList) (some 0)
      = buildCmd ("u".toList) ("o".toList) none ∧
    (some (0 : ℚ)) ≠ (none : Option ℚ) ∧
    Arg.lit ("-ss".toList) ∉ buildCmd ("u".toList) ("o".toList) (some 0) := by
  refine ⟨by decide, by simp, by decide⟩

/-- Witness for C9 (amended): seek 15 inserts `-ss 15`; seek absent
omits it. -/
theorem buildCmd_seek_witness :
    buildCmd ("v".toList) ("t".toList) (some 15) =
      [.lit "ffmpeg".toList, .lit "-y".toList, .lit "-ss".toList, .num 15,
       .lit "-i".toList, .lit "v".toList, .lit "-vframes".toList, .lit "1".toList,
       .lit "-q:v".toList, .lit "2".toList, .lit "-vf".toList,
       .lit "scale=320:-1".toList, .lit "t".toList] ∧
    buildCmd ("v".toList) ("t".toList) none =
      [.lit "ffmpeg".toList, .lit "-y".toList,
       .lit "-i".toList, .lit "v".toList, .lit "-vframes".toList, .lit "1".toList,
       .lit "-q:v".toList, .lit "2".toList, .lit "-vf".toList,
       .lit "scale=320:-1".toList, .lit "t".toList] := by
  exact ⟨(buildCmd_seek ("v".toList) ("t".toList) (some 15)).1 15 rfl (by norm_num),
    (buildCmd_seek ("v".toList) ("t".toList) none).2 (Or.inl rfl)⟩

end Script

namespace Script

/-- The external world as the per-item loop observes it: whether a
thumbnail file already exists for a name, what one ffprobe invocation on
a URL yields, and what one ffmpeg invocation on a URL at a seek time
yields.  The loop is deterministic given these. -/
structure Oracles where
  thumbExists : List Char → Bool
  probe : List Char → ProbeOutcome
  extract : List Char → ℚ → ProcOutcome

/-- `identifier + '.jpg'` (`src/script.py` line 173). -/
def thumbName (ident : List Char) : List Char := ident ++ ".jpg".toList

/-- How one iteration of the per-video loop ends.  Extraction is invoked
exactly in the `succeeded`/`failed` outcomes. -/
inductive ItemResult where
  | skippedMissing
  | skippedExists
  | succeeded
  | failed
deriving DecidableEq

/-- One iteration of the per-video loop (`src/script.py` lines 161-209):
skip (counted) when the URL or identifier is missing/empty or when the
thumbnail file already exists; otherwise resolve the seek time and
invoke extraction, succeeding iff `generate_thumbnail` returns true. -/
def processItem (oc : Oracles) (video : VideoRecord) : ItemResult :=
  if !truthy video.url || !truthy video.identifier then .skippedMissing
  else if oc.thumbExists (thumbName (video.identifier.getD [])) then .skippedExists
  else
    let sk := computeSeek (video.title.getD [])
      (get_video_duration (oc.probe (video.url.getD [])))
    if generate_thumbnail (oc.extract (video.url.getD []) sk.seek) then .succeeded
    else .failed

/-- The three run counters (`src/script.py` lines 156-158). -/
structure Counts where
  success_count : Nat
  failed_count : Nat
  skipped_count : Nat
deriving DecidableEq

/-- Counter update performed by one loop iteration. -/
def bump (c : Counts) : ItemResult → Counts
  | .skippedMissing => { c with skipped_count := c.skipped_count + 1 }
  | .skippedExists => { c with skipped_count := c.skipped_count + 1 }
  | .succeeded => { c with success_count := c.success_count + 1 }
  | .failed => { c with failed_count := c.failed_count + 1 }

/-- The whole per-video loop over the deduplicated list. -/
def processAll (oc : Oracles) (videos : List VideoRecord) : Counts :=
  videos.foldl (fun c v => bump c (processItem oc v)) ⟨0, 0, 0⟩

/-- The summary block printed at the end of a completed run
(`src/script.py` lines 215-218). -/
structure Summary where
  total : Nat
  success_count : Nat
  failed_count : Nat
  skipped_count : Nat
deriving DecidableEq

/-- The state of the input manifest `mp4_downloads.json`: absent,
present but not valid JSON of the expected shape (so `json.load` or
`data.get` raises), or parsed into records. -/
inductive ManifestInput where
  | missing
  | unparseable
  | parsed (records : List VideoRecord)

/-- `main` (`src/script.py` lines 106-219): returns the process exit
status and, for a run that completes the loop, the printed summary.
`sys.exit(1)` fires when ffmpeg is not invocable or the manifest file is
missing, both before any per-item work; a Python process also exits with
status 1 when an uncaught exception aborts it (unparseable manifest,
`ValueError` from `int(...)` during deduplication); otherwise `main`
falls off the end and the process exits 0. -/
def runScript (ffmpegInstalled : Bool) (input : ManifestInput) (oc : Oracles) :
    Nat × Option Summary :=
  if !ffmpegInstalled then (1, none)
  else
    match input with
    | .missing => (1, none)
    | .unparseable => (1, none)
    | .parsed records =>
      match dedup records with
      | .error _ => (1, none)
      | .ok m =>
        let videos := m.map Prod.snd
        let c := processAll oc videos
        (0, some ⟨videos.length, c.success_count, c.failed_count, c.skipped_count⟩)

end Script

namespace Script

theorem mem_updateAssoc (m : List (List Char × VideoRecord)) (key : List Char)
    (nv : VideoRecord) (kv : List Char × VideoRecord) (h : kv ∈ updateAssoc m key nv) :
    kv ∈ m ∨ kv = (key, nv) := by
  induction m with
  | nil => simp [updateAssoc] at h
  | cons p rest ih =>
    rcases p with ⟨k, v⟩
    by_cases hk : k = key
    · rw [updateAssoc, if_pos hk] at h
      rcases List.mem_cons.mp h with h2 | h2
      · right
        rw [h2, hk]
      · left
        exact List.mem_cons_of_mem _ h2
    · rw [updateAssoc, if_neg hk] at h
      rcases List.mem_cons.mp h with h2 | h2
      · left
        rw [h2]
        exact List.mem_cons_self _ _
      · rcases ih h2 with h3 | h3
        · left
          exact List.mem_cons_of_mem _ h3
        · right
          exact h3

theorem dedupStep_truthy (m m2 : List (List Char × VideoRecord)) (video : VideoRecord)
    (h : dedupStep m video = .ok m2)
    (hm : ∀ kv ∈ m, truthy kv.2.identifier = true) :
    ∀ kv ∈ m2, truthy kv.2.identifier = true := by
  unfold dedupStep at h
  split at h
  · cases h
    exact hm
  · rename_i ident hid
    split at h
    · cases h
      exact hm
    · rename_i hemp
      have hvid : truthy video.identifier = true := by
        simp [truthy, hid, hemp]
      split at h
      · cases h
        intro kv hkv
        rcases List.mem_append.mp hkv with h2 | h2
        · exact hm kv h2
        · rw [List.mem_singleton.mp h2]
          exact hvid
      · split at h
        · exact Except.noConfusion h
        · split at h
          · exact Except.noConfusion h
          · cases h
            intro kv hkv
            split at hkv
            · rcases mem_updateAssoc _ _ _ _ hkv with h2 | h2
              · exact hm kv h2
              · rw [h2]
                exact hvid
            · exact hm kv hkv

theorem dedupAux_truthy : ∀ (records : List VideoRecord)
    (m0 m : List (List Char × VideoRecord)), dedupAux m0 records = .ok m →
    (∀ kv ∈ m0, truthy kv.2.identifier = true) →
    ∀ kv ∈ m, truthy kv.2.identifier = true := by
  intro records
  induction records with
  | nil =>
    intro m0 m h hm
    cases h
    exact hm
  | cons v rest ih =>
    intro m0 m h hm
    rw [dedupAux] at h
    split at h
    · exact Except.noConfusion h
    · rename_i m1 hstep
      exact ih m1 m h (dedupStep_truthy m0 m1 v hstep hm)

/--
C5 (amended): a record that survives deduplication but is missing its
URL is skipped (the skip counter is incremented, extraction is never
invoked); but a manifest record with a missing or empty identifier is
dropped silently during deduplication — it never enters the per-video
loop, is not counted in any counter (in particular not in the skip
counter), and also never reaches extraction.
-/
theorem missing_fields_skip (oc : Oracles) :
    (∀ video : VideoRecord, truthy video.url = false ∨ truthy video.identifier = false →
      processItem oc video = .skippedMissing) ∧
    (∀ c : Counts, bump c .skippedMissing = { c with skipped_count := c.skipped_count + 1 }) ∧
    (∀ records m r, dedup records = .ok m → r ∈ m.map Prod.snd →
      truthy r.identifier = true) := by
  refine ⟨?_, fun c => rfl, ?_⟩
  · intro video hv
    have hcond : (!truthy video.url || !truthy video.identifier) = true := by
      rcases hv with h | h <;> simp [h]
    simp [processItem, hcond]
  · intro records m r hd hr
    obtain ⟨kv, hkv, hkv2⟩ := List.mem_map.mp hr
    have := dedupAux_truthy records [] m hd (by simp) kv hkv
    rw [hkv2] at this
    exact this

/-- Record with a URL but no identifier, for the C5 counterexample. -/
def recNoIdent : VideoRecord := ⟨none, some "u".toList, none, none, none⟩

/-- Fixed oracles for concrete runs: no thumbnail exists, the probe
times out, extraction times out. -/
def oracles0 : Oracles := ⟨fun _ => false, fun _ => .timedOut, fun _ _ => .timedOut⟩

/--
C5 counterexample: a manifest consisting of one record that has a URL
but no identifier finishes with ALL counters at zero — the record is
dropped during deduplication and never counted as skipped, contradicting
the claim that such a record is counted in the skipped counter.
-/
theorem missing_identifier_uncounted_cex :
    recNoIdent.identifier = none ∧
    runScript true (.parsed [recNoIdent]) oracles0 = (0, some ⟨0, 0, 0, 0⟩) := by
  exact ⟨rfl, rfl⟩

/-- Witness for C5 (amended) at a concrete record with an identifier but
no URL: it survives dedup and is skipped. -/
theorem missing_fields_skip_witness :
    processItem oracles0 ⟨some "a".toList, none, none, none, none⟩ = .skippedMissing := by
  exact (missing_fields_skip oracles0).1 ⟨some "a".toList, none, none, none, none⟩
    (Or.inl rfl)

end Script

namespace Script

/--
C8 (amended): the process exits 1 when the external tool is missing or
the input manifest file is missing, in both cases before any per-item
work (no summary is produced); every run that reaches and completes the
per-item loop exits 0, even when individual extractions failed; but a
run aborted by an uncaught exception — an unparseable manifest, or a
`ValueError` from an uncoercible size during deduplication — also exits
with status 1 rather than 0.
-/
theorem exit_codes (oc : Oracles) :
    (∀ input, runScript false input oc = (1, none)) ∧
    (runScript true .missing oc = (1, none)) ∧
    (∀ records m, dedup records = .ok m → (runScript true (.parsed records) oc).1 = 0) ∧
    (runScript true .unparseable oc = (1, none)) ∧
    (∀ records, dedup records = .error () → runScript true (.parsed records) oc = (1, none)) := by
  refine ⟨fun input => by simp [runScript], by simp [runScript], ?_, by simp [runScript], ?_⟩
  · intro records m hd
    simp [runScript, hd]
  · intro records hd
    simp [runScript, hd]

/--
C8 counterexample: with ffmpeg installed and the manifest present, a
duplicate identifier whose size is the uncoercible string `abc` aborts
the run with exit status 1 — a run other than the two named startup
failures that does not exit 0.
-/
theorem exit_code_crash_cex :
    runScript true (.parsed [recGoodSize, recBadSize]) oracles0 = (1, none) ∧
    (1 : Nat) ≠ 0 := by
  exact ⟨rfl, by norm_num⟩

/-- Record that enters the loop and fails extraction (probe and
extraction both time out under `oracles0`). -/
def recFullLoop : VideoRecord :=
  ⟨some "v".toList, some "hu".toList, none, some "t".toList, none⟩

/-- Witness for C8 (amended): a completed run whose only extraction
failed still exits 0. -/
theorem exit_codes_witness :
    (runScript true (.parsed [recFullLoop]) oracles0).1 = 0 ∧
    runScript true (.parsed [recFullLoop]) oracles0 = (0, some ⟨1, 0, 1, 0⟩) := by
  exact ⟨(exit_codes oracles0).2.2.1 [recFullLoop] [("v".toList, recFullLoop)] rfl, rfl⟩

theorem processAll_sum_aux (oc : Oracles) : ∀ (videos : List VideoRecord) (c0 : Counts),
    (videos.foldl (fun c v => bump c (processItem oc v)) c0).success_count
      + (videos.foldl (fun c v => bump c (processItem oc v)) c0).failed_count
      + (videos.foldl (fun c v => bump c (processItem oc v)) c0).skipped_count
      = c0.success_count + c0.failed_count + c0.skipped_count + videos.length := by
  intro videos
  induction videos with
  | nil =>
    intro c0
    simp
  | cons v rest ih =>
    intro c0
    rw [List.foldl_cons]
    rw [ih (bump c0 (processItem oc v))]
    have hb : (bump c0 (processItem oc v)).success_count
        + (bump c0 (processItem oc v)).failed_count
        + (bump c0 (processItem oc v)).skipped_count
        = c0.success_count + c0.failed_count + c0.skipped_count + 1 := by
      cases processItem oc v <;> simp [bump] <;> omega
    simp only [List.length_cons]
    omega

/--
C10: every loop iteration increments exactly one of the three counters
(success, failure, skip), and therefore at the end of any completed run
the three counters sum to the reported total, the number of
deduplicated videos.
-/
theorem counters_partition :
    (∀ (c : Counts) (r : ItemResult),
      bump c r = { c with success_count := c.success_count + 1 } ∨
      bump c r = { c with failed_count := c.failed_count + 1 } ∨
      bump c r = { c with skipped_count := c.skipped_count + 1 }) ∧
    (∀ (ffmpegInstalled : Bool) (input : ManifestInput) (oc : Oracles) (code : Nat)
      (s : Summary), runScript ffmpegInstalled input oc = (code, some s) →
      s.success_count + s.failed_count + s.skipped_count = s.total) := by
  constructor
  · intro c r
    cases r
    · right; right; rfl
    · right; right; rfl
    · left; rfl
    · right; left; rfl
  · intro ff input oc code s h
    cases ff with
    | false => simp [runScript] at h
    | true =>
      cases input with
      | missing => simp [runScript] at h
      | unparseable => simp [runScript] at h
      | parsed records =>
        cases hd : dedup records with
        | error e => simp [runScript, hd] at h
        | ok m =>
          simp only [runScript, hd, Bool.not_true, Bool.false_eq_true, if_false] at h
          have hs : s = ⟨m.length,
              (processAll oc (m.map Prod.snd)).success_count,
              (processAll oc (m.map Prod.snd)).failed_count,
              (processAll oc (m.map Prod.snd)).skipped_count⟩ := by
            have := congrArg Prod.snd h
            simp at this
            exact this.symm
          rw [hs]
          have := processAll_sum_aux oc (m.map Prod.snd) ⟨0, 0, 0⟩
          simpa [processAll] using this

/-- Witness for C10: in the completed concrete run of `recFullLoop`, the
counters 0 + 1 + 0 sum to the reported total 1. -/
theorem counters_partition_witness :
    runScript true (.parsed [recFullLoop]) oracles0 = (0, some ⟨1, 0, 1, 0⟩) ∧
    (0 : Nat) + 1 + 0 = 1 := by
  exact ⟨rfl, counters_partition.2 true (.parsed [recFullLoop]) oracles0 0 ⟨1, 0, 1, 0⟩ rfl⟩

end Script
